import Mathlib

/-!
Shallow embedding of `src/uz-wiki/src/scraper.py` (class `UzbekWikiScraper`
and class `TextCleaner`) and proofs about the crawl orchestration logic:
text cleaning, the per-title fetch loop, the length filter, chunk
partitioning, resume-point lookup, resume skipping, output-file numbering,
completion-order independence, and the recursive category crawl.

The external Wikipedia API is modelled as an abstract `ContentSource`:
a function from a title to either an exception (`Except.error`), an absent
page (`Except.ok none`), or a present page with title, text and url.
Machine text is modelled as Lean `String` (a list of characters; Python
`len` on `str` counts code points, as `String.length` does here).
-/

namespace UzWiki

/-- A page as returned by the wiki API: `page.title`, `page.text`,
`page.fullurl` (scraper.py lines 20-27). -/
structure Page where
  title : String
  text : String
  url : String
deriving DecidableEq, Repr

/-- The dict built by `scrape_page` (scraper.py lines 22-27):
`{'title': ..., 'text': ..., 'url': ..., 'length': len(page.text)}`. -/
structure PageRecord where
  title : String
  text : String
  url : String
  length : Nat
deriving DecidableEq, Repr

/-- The wiki API: fetching a title can raise an exception (`error`),
report a missing page (`ok none` — `page.exists()` false), or return the
page. -/
def ContentSource : Type := String → Except Unit (Option Page)

/-- `scrape_page` (scraper.py lines 19-28): build the record dict with
`length = len(page.text)` of the raw text, or `None` when the page does
not exist; an API exception propagates to the caller. -/
def scrape_page (src : ContentSource) (t : String) : Except Unit (Option PageRecord) :=
  match src t with
  | .error e => .error e
  | .ok none => .ok none
  | .ok (some p) => .ok (some ⟨p.title, p.text, p.url, p.text.length⟩)

/-! ## TextCleaner (scraper.py lines 405-420)

`clean_text` truncates at the first occurrence of each unwanted section
name, deletes citation markers `[digits]`, collapses whitespace runs to a
single space, and strips leading/trailing whitespace. Python's `\d` and
`\s` are modelled by `Char.isDigit` and `Char.isWhitespace` (the ASCII
subsets, which agree with Python on all inputs used below). -/

/-- `self.unwanted_sections = ['Havolalar', 'Manbalar', 'Izohlar']`
(scraper.py line 407). -/
def unwanted_sections : List (List Char) :=
  ["Havolalar".toList, "Manbalar".toList, "Izohlar".toList]

/-- `text.split(section)[0]`: the prefix of `s` strictly before the first
occurrence of `pat`; `s` itself when `pat` does not occur (in the source
the split is guarded by `if section in text`, and when the section is
absent the guard makes it a no-op, which coincides with this function). -/
def splitFirst (pat : List Char) : List Char → List Char
  | [] => []
  | c :: rest => if pat.isPrefixOf (c :: rest) then [] else c :: splitFirst pat rest

/-- The section-removal loop of `clean_text` (scraper.py lines 411-413). -/
def remove_sections (s : List Char) : List Char :=
  unwanted_sections.foldl (fun t sec => splitFirst sec t) s

/-- `re.sub(r'\[\d+\]', '', text)` (scraper.py line 416) as a left-to-right
scan: in state `none` we are outside any candidate match; in state
`some buf` we have consumed a `[` and the (reversed) digits `buf` after
it. A digit extends the candidate; `]` after at least one digit completes
the match, which is deleted; anything else means no match started at that
`[`, so the consumed characters are emitted literally and — since a match
can only begin at `[` — the scan resumes at the current character. This
is exactly the leftmost non-overlapping deletion the regex performs. -/
def remCitationsAux : Option (List Char) → List Char → List Char
  | none, [] => []
  | none, c :: rest =>
    if c = '[' then remCitationsAux (some []) rest
    else c :: remCitationsAux none rest
  | some buf, [] => '[' :: buf.reverse
  | some buf, c :: rest =>
    if c.isDigit then remCitationsAux (some (c :: buf)) rest
    else if buf ≠ [] ∧ c = ']' then remCitationsAux none rest
    else if c = '[' then ('[' :: buf.reverse) ++ remCitationsAux (some []) rest
    else ('[' :: buf.reverse) ++ (c :: remCitationsAux none rest)

/-- `re.sub(r'\[\d+\]', '', text)` (scraper.py line 416). -/
def remCitations (s : List Char) : List Char := remCitationsAux none s

/-- `re.sub(r'\s+', ' ', text)` (scraper.py line 417) as a left-to-right
scan: replace every maximal whitespace run by a single space. The flag
records whether the previous character belonged to a run already
replaced. -/
def collapseWsAux : Bool → List Char → List Char
  | _, [] => []
  | inRun, c :: rest =>
    if c.isWhitespace then
      if inRun then collapseWsAux true rest else ' ' :: collapseWsAux true rest
    else c :: collapseWsAux false rest

/-- `re.sub(r'\s+', ' ', text)` (scraper.py line 417). -/
def collapseWs (s : List Char) : List Char := collapseWsAux false s

/-- `text.strip()` (scraper.py line 418). -/
def stripWs (s : List Char) : List Char :=
  ((s.dropWhile Char.isWhitespace).reverse.dropWhile Char.isWhitespace).reverse

/-- `TextCleaner.clean_text` (scraper.py lines 409-420): sections, then
citation markers, then whitespace normalization, then strip. -/
def clean_text (s : String) : String :=
  ⟨stripWs (collapseWs (remCitations (remove_sections s.toList)))⟩

/-! ## The per-batch fetch loop

`scrape_from_title_files` lines 292-301 and the `scrape_batch` worker of
`parallel_scrape_from_files` lines 332-344 run the same loop: for each
title, `scrape_page`; exceptions are caught and the title skipped; a
record whose raw text length is `> 100` has its text replaced by
`clean_text` and is appended. -/

/-- The worker loop (scraper.py lines 332-344, identically 292-301):
survivors in title order. The filter `len(result['text']) > 100` reads
the text **before** cleaning. -/
def scrape_batch (src : ContentSource) : List String → List PageRecord
  | [] => []
  | t :: rest =>
    match scrape_page src t with
    | .error _ => scrape_batch src rest
    | .ok none => scrape_batch src rest
    | .ok (some r) =>
      if 100 < r.text.length then { r with text := clean_text r.text } :: scrape_batch src rest
      else scrape_batch src rest

/-- The batch loop of `scrape_category` (scraper.py lines 50-59): same
fetch loop but with **no** `try/except` around `scrape_page`, no length
filter and no cleaning — an API exception escapes and aborts the batch. -/
def scrape_category_batch (src : ContentSource) : List String → Except Unit (List PageRecord)
  | [] => .ok []
  | t :: rest =>
    match scrape_page src t with
    | .error e => .error e
    | .ok none => scrape_category_batch src rest
    | .ok (some r) => (scrape_category_batch src rest).map (r :: ·)

/-! ## Chunk partitioning

`batches = [titles[i:i + batch_size] for i in range(0, len(titles), batch_size)]`
(scraper.py lines 279 and 381). `range(0, n, B)` enumerates
`0, B, 2B, ...`, i.e. `⌈n/B⌉ = (n + B - 1) / B` indices, and
`titles[i*B : i*B + B]` is `(drop (i*B)).take B`. -/

/-- The batch-partition comprehension (scraper.py lines 279, 381). -/
def make_batches (l : List α) (B : Nat) : List (List α) :=
  (List.range ((l.length + B - 1) / B)).map (fun i => (l.drop (i * B)).take B)

/-! ## Output-file numbering (parallel_scrape_from_files lines 385-403)

`next_file_num = len(existing_files) + 1` (line 385); then for each
completed future in completion order: a batch whose worker raised is
logged and skipped (lines 402-403), a batch with an empty result list
writes nothing, and a non-empty one is written to
`<prefix>_<next_file_num>.csv` after which the counter increments
(lines 396-401). The sequential variant (lines 303-310) appends every
written file to `existing_files`, so `len(existing_files) + 1` is the
same incrementing counter there. The input list below is the sequence of
batch outcomes in completion order. -/

/-- The write loop of the scheduler: outcomes in completion order paired
with the file numbers they receive. -/
def schedule_writes : List (Except Unit (List PageRecord)) → Nat → List (Nat × List PageRecord)
  | [], _ => []
  | .error _ :: rest, n => schedule_writes rest n
  | .ok r :: rest, n =>
    if r.isEmpty then schedule_writes rest n
    else (n, r) :: schedule_writes rest (n + 1)

/-- The result lists that actually get written: the non-empty results of
the chunks that completed without raising, in completion order. -/
def written_results (rs : List (Except Unit (List PageRecord))) : List (List PageRecord) :=
  rs.filterMap (fun e =>
    match e with
    | .ok r => if r.isEmpty then none else some r
    | .error _ => none)

/-! ## Completion-order independence

`parallel_scrape_from_files` submits every chunk to the worker pool
(lines 386-390) and consumes them with `as_completed` (line 392): the
outcomes arrive as some permutation of the submitted chunk indices; with
one worker the pool executes the chunks in submission order, so the
completion order is `0, 1, ...`; with four workers it may be any
permutation. The chunk results themselves depend only on the fixed
`ContentSource` and the partition, not on the worker count. -/

/-- The per-chunk results, indexed by submission order (lines 386-390). -/
def run_batches (src : ContentSource) (titles : List String) (B : Nat) : List (List PageRecord) :=
  (make_batches titles B).map (scrape_batch src)

/-- The outcomes seen by the `as_completed` loop when the chunks finish
in the order `order` (a permutation of the chunk indices); the worker
loop catches per-title exceptions, so every outcome is `ok`. -/
def completed_in_order (results : List (List PageRecord)) (order : List Nat) :
    List (Except Unit (List PageRecord)) :=
  order.filterMap (fun i => (results[i]?).map Except.ok)

/-- All records written by a run: the written files concatenated. -/
def surviving_records (writes : List (Nat × List PageRecord)) : List PageRecord :=
  (writes.map Prod.snd).flatten

/-- A concrete source where every page exists with a 150-character text. -/
def srcA : ContentSource := fun t => .ok (some ⟨t, String.mk (List.replicate 150 'a'), t⟩)

/-! ## Resume-point lookup (scraper.py lines 250-258 and 347-357)

`existing_files = sorted(list(output_path.glob('*.csv')))` sorts the
output files by **filename** (Python compares path strings
lexicographically by code point, which is the lexicographic order on
`List Char` used here); the code then opens `existing_files[-1]` and
takes `df['title'].iloc[0]` — the title of the first record of the
filename-greatest file — or leaves `last_title = None` when there is no
file or the last one is empty. An output file is modelled as its
filename together with its parsed records. -/

/-- Code-point-lexicographic `a ≤ b` on filenames, as Python's `sorted`
compares path strings. -/
def nameLe (a b : String) : Bool := !decide (b.toList < a.toList)

/-- `sorted(list(output_path.glob('*.csv')))` (lines 251 and 348): the
directory listing sorted by filename (a stable sort, as Python's). -/
def sort_by_name (files : List (String × List PageRecord)) : List (String × List PageRecord) :=
  files.mergeSort (fun a b => nameLe a.1 b.1)

/-- Lines 250-258 (identically 346-357): the resume title is the first
record's title of the filename-greatest output file, if any. -/
def find_resume_point (files : List (String × List PageRecord)) : Option String :=
  match (sort_by_name files).getLast? with
  | none => none
  | some (_, recs) =>
    match recs.head? with
    | none => none
    | some r => some r.title

/-! ## Resume skipping

Sequential crawl (`scrape_from_title_files` lines 281-286): per file, the
sorted titles are chunked and the loop skips every batch (`continue`)
until the batch containing the resume title has been seen, so processing
starts strictly at the chunk after it. Parallel crawl
(`parallel_scrape_from_files` lines 372-378): the globally sorted title
list is cut at `index(last_title) + 1` **before** chunking — a
title-granular resume; on `ValueError` (title absent) the list is left
whole. -/

/-- The skip loop (lines 281-286): `(processed batches, found flag)`.
While the flag is down every batch is skipped, and the flag rises on the
batch containing `R`; once it is up every batch is processed. -/
def seq_skip (R : String) : List (List String) → Bool → List (List String) × Bool
  | [], found => ([], found)
  | b :: rest, true =>
    let p := seq_skip R rest true
    (b :: p.1, p.2)
  | b :: rest, false => seq_skip R rest (decide (R ∈ b))

/-- Lines 372-378: cut the sorted title list just after the resume title;
`list.index` raises `ValueError` when the title is absent, which is
caught and leaves the list whole. -/
def par_remaining (titles : List String) (last : Option String) : List String :=
  match last with
  | none => titles
  | some R => if R ∈ titles then titles.drop (titles.indexOf R + 1) else titles

/-! ## The sequential crawl over title files (lines 267-310)

`scrape_from_title_files` reads each title file in turn, sorts its
titles (`titles.sort()`, line 276), chunks them (line 279) and runs the
skip loop of `seq_skip`, threading `found_last_title` across files. The
value below is the list of batches actually processed. -/

/-- `titles.sort()` (line 276): Python's stable ascending sort under
code-point comparison. -/
def sortTitles (l : List String) : List String :=
  l.mergeSort (fun a b => nameLe a b)

/-- Lines 267-301: the batches the sequential crawl actually processes,
given the per-file title lists, the batch size, the resume title `R` and
the initial `found_last_title` flag (`False` when a resume title was
found, `True` when there was none). -/
def seq_run (R : String) (B : Nat) : List (List String) → Bool → List (List String)
  | [], _ => []
  | f :: rest, found =>
    let p := seq_skip R (make_batches (sortTitles f) B) found
    p.1 ++ seq_run R B rest p.2

/-! ## The length filter and the cleaning frame -/

/-- A source with a single page `T` whose raw text has 109 characters but
cleans to the empty string: the text starts with the unwanted section
name `Havolalar`, so cleaning truncates everything after (and including)
it. -/
def srcC1 : ContentSource := fun t =>
  if t = "T" then
    .ok (some ⟨"T", "Havolalar" ++ String.mk (List.replicate 100 'a'), "u"⟩)
  else .ok none

/-! ## Fetch-failure handling -/

/-- A source that raises on title `X` and returns a 150-character page
for every other title. -/
def srcErr : ContentSource := fun t =>
  if t = "X" then .error ()
  else .ok (some ⟨t, String.mk (List.replicate 150 'a'), t⟩)

/-! ## Recursive category crawl (scraper.py lines 85-103)

`recursive_scrape(category_name, max_depth, max_articles, visited,
article_count)` returns immediately when `max_depth < 0`, the category is
already in the shared visited set, or `article_count >= max_articles`;
otherwise it adds the category to the visited set, adds its member count,
scrapes it, and recurses into each subcategory with `max_depth - 1`,
threading the shared visited set and the running count. The category
graph (the answers of `get_category_members` / `get_subcategories`) may
be cyclic. `max_depth` appears only in the guard `max_depth < 0` and the
decrement, so it is modelled by the fuel `(max_depth + 1).toNat`, which
is zero exactly when `max_depth < 0` and decrements in step with
`max_depth`. The result is `(visited, article_count, trace)` where
`trace` lists the categories actually crawled, in crawl order. -/

/-- The category graph as answered by the wiki API: direct members
(`get_category_members`, lines 36-44) and subcategories
(`get_subcategories`, lines 75-83). -/
structure CategoryGraph where
  members : String → List String
  subcats : String → List String

mutual

/-- `recursive_scrape` (lines 85-103), fuel form. -/
def recursive_scrape_aux (g : CategoryGraph) (maxA : Nat) :
    Nat → String → List String → Nat → List String × Nat × List String
  | 0, _, visited, cnt => (visited, cnt, [])
  | fuel + 1, cat, visited, cnt =>
    if cat ∈ visited ∨ maxA ≤ cnt then (visited, cnt, [])
    else
      scrape_subcats g maxA fuel (g.subcats cat) (cat :: visited)
        (cnt + (g.members cat).length) [cat]
termination_by fuel _ _ _ => (fuel, 0)

/-- The `for subcat in subcats` loop (lines 100-101), threading the
visited set and the count. -/
def scrape_subcats (g : CategoryGraph) (maxA : Nat) (fuel : Nat) :
    List String → List String → Nat → List String → List String × Nat × List String
  | [], visited, cnt, trace => (visited, cnt, trace)
  | sc :: rest, visited, cnt, trace =>
    scrape_subcats g maxA fuel rest
      (recursive_scrape_aux g maxA fuel sc visited cnt).1
      (recursive_scrape_aux g maxA fuel sc visited cnt).2.1
      (trace ++ (recursive_scrape_aux g maxA fuel sc visited cnt).2.2)
termination_by l _ _ _ => (fuel, l.length + 1)

end

/-- `recursive_scrape` with the original `max_depth : Int` argument
(default call: depth 2, ceiling 1000, empty visited set, zero count). -/
def recursive_scrape (g : CategoryGraph) (cat : String) (max_depth : Int)
    (maxA : Nat) (visited : List String) (cnt : Nat) :
    List String × Nat × List String :=
  recursive_scrape_aux g maxA (max_depth + 1).toNat cat visited cnt

/-- A two-node cyclic category graph: categories `X` and `Y` list each
other as subcategories. -/
def gXY : CategoryGraph where
  members := fun _ => ["a1"]
  subcats := fun c => if c = "X" then ["Y"] else if c = "Y" then ["X"] else []

theorem make_batches_nil {α : Type _} (B : Nat) : make_batches ([] : List α) B = [] := by
  have h : (0 + B - 1) / B = 0 := by
    rcases Nat.eq_zero_or_pos B with rfl | hB
    · rfl
    · exact Nat.div_eq_of_lt (by omega)
  simp only [make_batches, List.length_nil, h, List.range_zero, List.map_nil]

theorem chunk_count_pos {n B : Nat} (hB : 0 < B) (hn : 0 < n) :
    (n + B - 1) / B = (n - B + B - 1) / B + 1 := by
  rcases le_or_lt n B with h | h
  · have h1 : (n + B - 1) / B = 1 := Nat.div_eq_of_lt_le (by omega) (by omega)
    have h2 : (n - B + B - 1) / B = 0 := Nat.div_eq_of_lt (by omega)
    omega
  · have e1 : n + B - 1 = (n - B - 1) + B + B := by omega
    have e2 : n - B + B - 1 = (n - B - 1) + B := by omega
    rw [e1, e2, Nat.add_div_right _ hB]

theorem make_batches_cons {α : Type _} {l : List α} {B : Nat} (hB : 0 < B) (hl : l ≠ []) :
    make_batches l B = l.take B :: make_batches (l.drop B) B := by
  have hn : 0 < l.length := List.length_pos.mpr hl
  unfold make_batches
  rw [List.length_drop, chunk_count_pos hB hn, List.range_succ_eq_map, List.map_cons,
    List.map_map]
  congr 1
  · simp
  · apply List.map_congr_left
    intro i _
    simp only [Function.comp_apply]
    rw [List.drop_drop, Nat.succ_mul, Nat.add_comm (i * B) B]

theorem make_batches_flatten {α : Type _} {B : Nat} (hB : 0 < B) (l : List α) :
    (make_batches l B).flatten = l := by
  rcases eq_or_ne l [] with rfl | hl
  · rw [make_batches_nil]; rfl
  · rw [make_batches_cons hB hl, List.flatten_cons,
      make_batches_flatten hB (l.drop B), List.take_append_drop]
termination_by l.length
decreasing_by
  have h : 0 < l.length := List.length_pos.mpr hl
  rw [List.length_drop]; omega

theorem make_batches_length_le {α : Type _} (l : List α) (B : Nat) :
    ∀ c ∈ make_batches l B, c.length ≤ B := by
  intro c hc
  simp only [make_batches, List.mem_map, List.mem_range] at hc
  obtain ⟨i, _, rfl⟩ := hc
  exact List.length_take_le _ _

theorem make_batches_dropLast {α : Type _} {B : Nat} (hB : 0 < B) (l : List α) :
    ∀ c ∈ (make_batches l B).dropLast, c.length = B := by
  rcases eq_or_ne l [] with rfl | hl
  · rw [make_batches_nil]; intro c hc; cases hc
  · rw [make_batches_cons hB hl]
    rcases eq_or_ne (l.drop B) [] with hd | hd
    · rw [hd, make_batches_nil]; intro c hc; cases hc
    · have hne : make_batches (l.drop B) B ≠ [] := by
        rw [make_batches_cons hB hd]; simp
      rw [List.dropLast_cons_of_ne_nil hne]
      intro c hc
      rcases List.mem_cons.mp hc with rfl | hc'
      · have hBl : B < l.length := by
          by_contra h
          push_neg at h
          exact hd (List.drop_eq_nil_of_le h)
        rw [List.length_take]
        omega
      · exact make_batches_dropLast hB (l.drop B) c hc'
termination_by l.length
decreasing_by
  have h : 0 < l.length := List.length_pos.mpr hl
  rw [List.length_drop]; omega

/-- C7: for every title sequence `T` and batch size `B > 0`, partitioning
`T` into consecutive chunks of size `B` and concatenating the chunks
yields exactly `T` in the same order; every chunk has length at most `B`,
and every chunk except possibly the last has length exactly `B`. -/
theorem partition_concat_law {α : Type _} (T : List α) (B : Nat) (hB : 0 < B) :
    (make_batches T B).flatten = T ∧
    (∀ c ∈ make_batches T B, c.length ≤ B) ∧
    (∀ c ∈ (make_batches T B).dropLast, c.length = B) :=
  ⟨make_batches_flatten hB T, make_batches_length_le T B, make_batches_dropLast hB T⟩

/-- Witness for C7 at `T = ["A","B","C"]`, `B = 2`. -/
theorem partition_concat_law_witness :
    (0 : Nat) < 2 ∧
    ((make_batches ["A", "B", "C"] 2).flatten = ["A", "B", "C"] ∧
     (∀ c ∈ make_batches ["A", "B", "C"] 2, c.length ≤ 2) ∧
     (∀ c ∈ (make_batches ["A", "B", "C"] 2).dropLast, c.length = 2)) :=
  ⟨by decide, partition_concat_law ["A", "B", "C"] 2 (by decide)⟩

theorem schedule_writes_snd (rs : List (Except Unit (List PageRecord))) (n : Nat) :
    (schedule_writes rs n).map Prod.snd = written_results rs := by
  induction rs generalizing n with
  | nil => rfl
  | cons e rest ih =>
    cases e with
    | error u => simpa [schedule_writes, written_results] using ih n
    | ok r =>
      by_cases hr : r.isEmpty <;>
        simp_all [schedule_writes, written_results, List.filterMap_cons]

theorem schedule_writes_fst (rs : List (Except Unit (List PageRecord))) (n : Nat) :
    (schedule_writes rs n).map Prod.fst = List.range' n (written_results rs).length := by
  induction rs generalizing n with
  | nil => rfl
  | cons e rest ih =>
    cases e with
    | error u => simpa [schedule_writes, written_results] using ih n
    | ok r =>
      by_cases hr : r.isEmpty <;>
        simp_all [schedule_writes, written_results, List.filterMap_cons, List.range'_succ]

theorem schedule_writes_nonempty (rs : List (Except Unit (List PageRecord))) (n : Nat) :
    ∀ p ∈ schedule_writes rs n, p.2 ≠ [] := by
  induction rs generalizing n with
  | nil => intro p hp; cases hp
  | cons e rest ih =>
    cases e with
    | error u => exact ih n
    | ok r =>
      by_cases hr : r.isEmpty
      · simpa [schedule_writes, hr] using ih n
      · intro p hp
        simp only [schedule_writes, hr, if_false] at hp
        rcases List.mem_cons.mp hp with rfl | hp'
        · exact fun hrr => hr (by simp only [List.isEmpty_iff]; exact hrr)
        · exact ih (n + 1) p hp'

/-- C4: output file numbers come from a single counter that starts at `n`
and increases by one per written file, in completion order: the written
file numbers are exactly `n, n+1, ...`; the written contents are exactly
the non-empty results of the successfully completed chunks, in completion
order; and no written file is empty (empty chunks consume no number and
write nothing). -/
theorem output_numbering (rs : List (Except Unit (List PageRecord))) (n : Nat) :
    (schedule_writes rs n).map Prod.fst = List.range' n ((schedule_writes rs n).length) ∧
    (schedule_writes rs n).map Prod.snd = written_results rs ∧
    ∀ p ∈ schedule_writes rs n, p.2 ≠ [] := by
  refine ⟨?_, schedule_writes_snd rs n, schedule_writes_nonempty rs n⟩
  have h : (schedule_writes rs n).length = (written_results rs).length := by
    rw [← schedule_writes_snd rs n, List.length_map]
  rw [h, schedule_writes_fst rs n]

theorem written_completed (results : List (List PageRecord)) (order : List Nat) :
    written_results (completed_in_order results order) =
      order.filterMap (fun i => (results[i]?).bind
        (fun r => if r.isEmpty then none else some r)) := by
  induction order with
  | nil => rfl
  | cons i o ih =>
    simp only [completed_in_order, written_results, List.filterMap_cons] at *
    cases hri : results[i]? with
    | none => simpa [hri] using ih
    | some r =>
      by_cases hr : r.isEmpty <;> simp_all [hri, hr]

/-- C8: for a fixed `ContentSource`, fixed titles and fixed batch size,
a run whose chunks complete in an arbitrary order `o` (four workers)
writes the same multiset of surviving page records as a run whose chunks
complete in submission order (one worker); only the file numbering
(`n₁` versus `n₂`, and the order of writes) can differ. -/
theorem worker_count_equivalence (src : ContentSource) (titles : List String) (B : Nat)
    (o : List Nat) (n₁ n₂ : Nat)
    (h : o.Perm (List.range (make_batches titles B).length)) :
    (surviving_records (schedule_writes
        (completed_in_order (run_batches src titles B) o) n₁)).Perm
      (surviving_records (schedule_writes
        (completed_in_order (run_batches src titles B)
          (List.range (make_batches titles B).length)) n₂)) := by
  unfold surviving_records
  rw [schedule_writes_snd, schedule_writes_snd, written_completed, written_completed]
  exact (h.filterMap _).flatten

/-- Witness for C8 at three titles, `B = 2`, completion order `[1, 0]`. -/
theorem worker_count_equivalence_witness :
    ([1, 0] : List Nat).Perm (List.range (make_batches ["A", "B", "C"] 2).length) ∧
    (surviving_records (schedule_writes
        (completed_in_order (run_batches srcA ["A", "B", "C"] 2) [1, 0]) 1)).Perm
      (surviving_records (schedule_writes
        (completed_in_order (run_batches srcA ["A", "B", "C"] 2)
          (List.range (make_batches ["A", "B", "C"] 2).length)) 1)) :=
  ⟨by decide, worker_count_equivalence srcA ["A", "B", "C"] 2 [1, 0] 1 1 (by decide)⟩

unseal List.merge List.mergeSort in

/-- C3 counterexample: two output files written in order
`wiki_content_9.csv` (first-record title `T9`) then `wiki_content_10.csv`
(first-record title `T10`, the file number counter having incremented
from 9 to 10). The most recently written file is `_10`, but filename
collation puts `_10` before `_9`, so the lookup returns `T9`, not the
claimed `tN = T10`. -/
theorem resume_point_counterexample :
    find_resume_point
        [("wiki_content_9.csv", [⟨"T9", "x", "u", 1⟩]),
         ("wiki_content_10.csv", [⟨"T10", "y", "u", 1⟩])] = some "T9" ∧
    ("T9" : String) ≠ "T10" := by
  exact ⟨by decide, by decide⟩

/-- C3 corrected: the lookup returns the first-record title of the output
file whose **filename** is lexicographically greatest — which equals the
most recently written file's first-record title exactly when filename
collation agrees with write order, as hypothesised here (`files` listed
in write order with nondecreasing names) — and returns `none` when no
output file exists. -/
theorem resume_point_lexicographic (pre : List (String × List PageRecord))
    (name : String) (recs : List PageRecord)
    (hsorted : List.Pairwise (fun a b => nameLe a.1 b.1) (pre ++ [(name, recs)])) :
    find_resume_point (pre ++ [(name, recs)]) = recs.head?.map PageRecord.title ∧
    find_resume_point [] = none := by
  constructor
  · unfold find_resume_point sort_by_name
    rw [List.mergeSort_of_sorted hsorted, List.getLast?_concat]
    cases recs <;> rfl
  · unfold find_resume_point sort_by_name
    rw [List.mergeSort_nil]
    rfl

/-- Witness for C3's corrected statement at two write-ordered files whose
names collate in write order. -/
theorem resume_point_lexicographic_witness :
    List.Pairwise (fun a b => nameLe a.1 b.1)
        ([("batch_a.csv", [(⟨"T1", "x", "u", 1⟩ : PageRecord)])] ++
          [("batch_b.csv", [⟨"T2", "y", "u", 1⟩])]) ∧
    (find_resume_point
        ([("batch_a.csv", [(⟨"T1", "x", "u", 1⟩ : PageRecord)])] ++
          [("batch_b.csv", [⟨"T2", "y", "u", 1⟩])]) =
        ([(⟨"T2", "y", "u", 1⟩ : PageRecord)]).head?.map PageRecord.title ∧
      find_resume_point [] = none) :=
  ⟨by decide,
   resume_point_lexicographic [("batch_a.csv", [⟨"T1", "x", "u", 1⟩])]
     "batch_b.csv" [⟨"T2", "y", "u", 1⟩] (by decide)⟩

theorem seq_skip_found (R : String) : ∀ l, seq_skip R l true = (l, true) := by
  intro l
  induction l with
  | nil => rfl
  | cons b rest ih => simp [seq_skip, ih]

/-- C2 counterexample: titles `A B C D`, `B = 2`, resume title `R = A`.
`A` falls in chunk `C = ["A", "B"]`, and the claim says no title inside
that chunk is ever processed; but the parallel crawl resumes at
`index("A") + 1` and schedules `["B", "C", "D"]`, which contains `B ∈ C`. -/
theorem resume_skip_counterexample :
    make_batches ["A", "B", "C", "D"] 2 = [["A", "B"], ["C", "D"]] ∧
    ("A" : String) ∈ ["A", "B"] ∧
    par_remaining ["A", "B", "C", "D"] (some "A") = ["B", "C", "D"] ∧
    ("B" : String) ∈ ["A", "B"] ∧
    ("B" : String) ∈ par_remaining ["A", "B", "C", "D"] (some "A") := by
  refine ⟨by decide, by decide, by decide, by decide, by decide⟩

/-- C2 corrected: resume granularity differs between the two crawls. In
the sequential crawl, if the resume title `R` first occurs in chunk `C`
then the processed batches are exactly those strictly after `C` (batch
granular). In the parallel crawl the remaining titles are exactly those
strictly after the first occurrence of `R` (title granular), so later
titles of `R`'s chunk are reprocessed. -/
theorem resume_skip_granularity :
    (∀ (R : String) (pre post : List (List String)) (C : List String),
        R ∈ C → (∀ b ∈ pre, R ∉ b) →
        (seq_skip R (pre ++ C :: post) false).1 = post) ∧
    (∀ (R : String) (tpre tpost : List String), R ∉ tpre →
        par_remaining (tpre ++ R :: tpost) (some R) = tpost) := by
  constructor
  · intro R pre post C hC hpre
    induction pre with
    | nil =>
      have hdec : decide (R ∈ C) = true := decide_eq_true hC
      simp only [List.nil_append, seq_skip, hdec, seq_skip_found]
    | cons b pre' ih =>
      have hb : R ∉ b := hpre b (List.mem_cons_self b pre')
      have hdec : decide (R ∈ b) = false := decide_eq_false hb
      simp only [List.cons_append, seq_skip, hdec]
      exact ih (fun b' hb' => hpre b' (List.mem_cons_of_mem b hb'))
  · intro R tpre tpost h
    have hmem : R ∈ tpre ++ R :: tpost := by simp
    have hidx : (tpre ++ R :: tpost).indexOf R = tpre.length := by
      induction tpre with
      | nil => simp
      | cons a t ih =>
        have ha : a ≠ R := fun he => h (by simp [he])
        have ht : R ∉ t := fun hm => h (List.mem_cons_of_mem a hm)
        rw [List.cons_append, List.indexOf_cons_ne _ ha, ih ht (by simp)]
        rfl
    have hdrop : (tpre ++ R :: tpost).drop (tpre.length + 1) = tpost := by
      have h1 := @List.drop_append String tpre (R :: tpost) 1
      simp only [List.drop_succ_cons, List.drop_zero] at h1
      exact h1
    simp [par_remaining, hmem, hidx, hdrop]

/-- Witness for C2's corrected statement: sequential skip past the chunk
containing `A`, parallel cut immediately after `A`. -/
theorem resume_skip_granularity_witness :
    (seq_skip "A" ([["X"]] ++ ["A", "B"] :: [["C", "D"]]) false).1 = [["C", "D"]] ∧
    par_remaining (["0"] ++ "A" :: ["B"]) (some "A") = ["B"] :=
  ⟨resume_skip_granularity.1 "A" [["X"]] [["C", "D"]] ["A", "B"] (by decide) (by decide),
   resume_skip_granularity.2 "A" ["0"] ["B"] (by decide)⟩

theorem mem_of_mem_make_batches {α : Type _} {l : List α} {B : Nat} {b : List α}
    (hb : b ∈ make_batches l B) {x : α} (hx : x ∈ b) : x ∈ l := by
  simp only [make_batches, List.mem_map, List.mem_range] at hb
  obtain ⟨i, _, rfl⟩ := hb
  exact List.mem_of_mem_drop (List.mem_of_mem_take hx)

theorem seq_skip_never_found {R : String} {l : List (List String)}
    (h : ∀ b ∈ l, R ∉ b) : seq_skip R l false = ([], false) := by
  induction l with
  | nil => rfl
  | cons b rest ih =>
    have hb : decide (R ∈ b) = false := decide_eq_false (h b (List.mem_cons_self b rest))
    simp only [seq_skip, hb]
    exact ih (fun b' hb' => h b' (List.mem_cons_of_mem b hb'))

/-- C10: if the resume title `R` read from the output directory occurs in
no title file, the sequential crawl processes no batch at all (the run
silently does nothing), while the parallel crawl falls back to the whole
sorted title sequence. -/
theorem missing_resume_title (files : List (List String)) (B : Nat) (R : String)
    (allTitles : List String) (h1 : ∀ f ∈ files, R ∉ f) (h2 : R ∉ allTitles) :
    seq_run R B files false = [] ∧ par_remaining allTitles (some R) = allTitles := by
  constructor
  · induction files with
    | nil => rfl
    | cons f rest ih =>
      have hRf : R ∉ sortTitles f := fun hm =>
        h1 f (List.mem_cons_self f rest) ((List.mergeSort_perm f _).mem_iff.mp hm)
      have hbatches : ∀ b ∈ make_batches (sortTitles f) B, R ∉ b :=
        fun b hb hRb => hRf (mem_of_mem_make_batches hb hRb)
      simp only [seq_run, seq_skip_never_found hbatches, List.nil_append]
      exact ih (fun f' hf' => h1 f' (List.mem_cons_of_mem f hf'))
  · have hdec : (R ∈ allTitles) = False := eq_false h2
    simp [par_remaining, hdec]

/-- Witness for C10 at one title file `["X"]` and resume title `A`. -/
theorem missing_resume_title_witness :
    seq_run "A" 1 [["X"]] false = [] ∧ par_remaining ["Y"] (some "A") = ["Y"] :=
  missing_resume_title [["X"]] 1 "A" ["Y"] (by decide) (by decide)

/-- C1 counterexample: the fetched record for `T` survives into the batch
although its **cleaned** text is empty (length `0 < 100`), because the
code filters on the raw pre-clean length (`109 > 100`) and only then
cleans. -/
theorem length_filter_counterexample :
    scrape_batch srcC1 ["T"] =
      [⟨"T", clean_text ("Havolalar" ++ String.mk (List.replicate 100 'a')), "u", 109⟩] ∧
    clean_text ("Havolalar" ++ String.mk (List.replicate 100 'a')) = "" ∧
    (clean_text ("Havolalar" ++ String.mk (List.replicate 100 'a'))).length < 100 :=
  ⟨by decide, by decide, by decide⟩

/-- C1 corrected: a fetched record survives if and only if its **raw**
pre-clean text length is strictly greater than 100; each surviving
record is the fetched record with only its text replaced by the cleaned
text, in title order. -/
theorem length_filter_amended (src : ContentSource) (titles : List String) :
    scrape_batch src titles = titles.filterMap (fun t =>
      match scrape_page src t with
      | .ok (some r) =>
        if 100 < r.text.length then some { r with text := clean_text r.text } else none
      | .ok none => none
      | .error _ => none) := by
  induction titles with
  | nil => rfl
  | cons t rest ih =>
    simp only [scrape_batch, List.filterMap_cons]
    cases h : scrape_page src t with
    | error e => simp [ih]
    | ok o =>
      cases o with
      | none => simp [ih]
      | some r =>
        by_cases hr : 100 < r.text.length
        · simp [hr, ih]
        · simp [hr, ih]

/-- C9: cleaning rewrites only the text field: every surviving record
keeps the fetched page's title and url, and its persisted `length` field
is the length of the raw pre-clean text, while its text field holds the
cleaned text — so in general the persisted length differs from the
length of the text actually written, as the second conjunct exhibits. -/
theorem clean_rewrites_only_text (src : ContentSource) (titles : List String) :
    (∀ rec ∈ scrape_batch src titles,
      ∃ t p, t ∈ titles ∧ src t = .ok (some p) ∧ 100 < p.text.length ∧
        rec.title = p.title ∧ rec.url = p.url ∧ rec.length = p.text.length ∧
        rec.text = clean_text p.text) ∧
    ∃ (srcX : ContentSource) (titlesX : List String) (rec : PageRecord),
      rec ∈ scrape_batch srcX titlesX ∧ rec.length ≠ rec.text.length := by
  constructor
  · induction titles with
    | nil => intro rec h; cases h
    | cons t rest ih =>
      intro rec hrec
      simp only [scrape_batch, scrape_page] at hrec
      cases h : src t with
      | error e =>
        rw [h] at hrec
        obtain ⟨t', p, ht', rest'⟩ := ih rec hrec
        exact ⟨t', p, List.mem_cons_of_mem t ht', rest'⟩
      | ok o =>
        cases o with
        | none =>
          rw [h] at hrec
          obtain ⟨t', p, ht', rest'⟩ := ih rec hrec
          exact ⟨t', p, List.mem_cons_of_mem t ht', rest'⟩
        | some p =>
          rw [h] at hrec
          dsimp only at hrec
          by_cases hp : 100 < p.text.length
          · rw [if_pos hp] at hrec
            rcases List.mem_cons.mp hrec with rfl | hrec'
            · exact ⟨t, p, List.mem_cons_self t rest, h, hp, rfl, rfl, rfl, rfl⟩
            · obtain ⟨t', p', ht', rest'⟩ := ih rec hrec'
              exact ⟨t', p', List.mem_cons_of_mem t ht', rest'⟩
          · rw [if_neg hp] at hrec
            obtain ⟨t', p', ht', rest'⟩ := ih rec hrec
            exact ⟨t', p', List.mem_cons_of_mem t ht', rest'⟩
  · exact ⟨srcC1, ["T"],
      ⟨"T", clean_text ("Havolalar" ++ String.mk (List.replicate 100 'a')), "u", 109⟩,
      by decide, by decide⟩

/-- Witness for C9's universally quantified frame condition at `srcC1`
and a concrete surviving record. -/
theorem clean_rewrites_only_text_witness :
    ∃ t p, t ∈ ["T"] ∧ srcC1 t = .ok (some p) ∧ 100 < p.text.length ∧
      (⟨"T", clean_text ("Havolalar" ++ String.mk (List.replicate 100 'a')), "u",
        109⟩ : PageRecord).title = p.title ∧
      (⟨"T", clean_text ("Havolalar" ++ String.mk (List.replicate 100 'a')), "u",
        109⟩ : PageRecord).url = p.url ∧
      (⟨"T", clean_text ("Havolalar" ++ String.mk (List.replicate 100 'a')), "u",
        109⟩ : PageRecord).length = p.text.length ∧
      (⟨"T", clean_text ("Havolalar" ++ String.mk (List.replicate 100 'a')), "u",
        109⟩ : PageRecord).text = clean_text p.text :=
  (clean_rewrites_only_text srcC1 ["T"]).1 _ (by decide)

/-- C5 counterexample: `scrape_category`'s fetch loop has no `try/except`,
so a fetch exception on title `X` aborts the whole batch — title `Y`,
which on its own yields a record, is never processed. -/
theorem fetch_error_counterexample :
    scrape_category_batch srcErr ["X", "Y"] = .error () ∧
    scrape_category_batch srcErr ["Y"] =
      .ok [⟨"Y", String.mk (List.replicate 150 'a'), "Y", 150⟩] :=
  ⟨rfl, rfl⟩

/-- C5 corrected: in the flat-file and parallel fetch loops
(`scrape_from_title_files`, `scrape_batch`) a fetch exception is caught:
the title is dropped without retry and the loop continues with the rest
of the batch. In `scrape_category`'s loop the exception propagates and
aborts the batch. -/
theorem fetch_error_handling :
    (∀ (src : ContentSource) (pre post : List String) (t : String),
        src t = .error () →
        scrape_batch src (pre ++ t :: post) = scrape_batch src (pre ++ post)) ∧
    (∀ (src : ContentSource) (titles : List String) (t : String),
        t ∈ titles → src t = .error () →
        scrape_category_batch src titles = .error ()) := by
  constructor
  · intro src pre post t h
    induction pre with
    | nil => simp only [List.nil_append, scrape_batch, scrape_page, h]
    | cons u pre' ih =>
      simp only [List.cons_append, scrape_batch]
      cases hu : scrape_page src u with
      | error e => exact ih
      | ok o =>
        cases o with
        | none => exact ih
        | some r =>
          dsimp only
          by_cases hr : 100 < r.text.length
          · rw [if_pos hr, if_pos hr]
            exact congrArg _ ih
          · rw [if_neg hr, if_neg hr]
            exact ih
  · intro src titles t ht h
    induction titles with
    | nil => cases ht
    | cons u rest ih =>
      rcases List.mem_cons.mp ht with rfl | hrest
      · simp only [scrape_category_batch, scrape_page, h]
      · cases hu : src u with
        | error e => simp only [scrape_category_batch, scrape_page, hu]
        | ok o =>
          cases o with
          | none =>
            simp only [scrape_category_batch, scrape_page, hu]
            exact ih hrest
          | some p =>
            simp only [scrape_category_batch, scrape_page, hu, ih hrest, Except.map]

/-- Witness for C5's corrected statement at `srcErr`. -/
theorem fetch_error_handling_witness :
    scrape_batch srcErr (["Y"] ++ "X" :: ["Z"]) = scrape_batch srcErr (["Y"] ++ ["Z"]) ∧
    scrape_category_batch srcErr ["Y", "X"] = .error () :=
  ⟨fetch_error_handling.1 srcErr ["Y"] ["Z"] "X" rfl,
   fetch_error_handling.2 srcErr ["Y", "X"] "X" (by decide) rfl⟩

theorem crawl_subcats_invariant (g : CategoryGraph) (maxA : Nat) (fuel : Nat)
    (hA : ∀ (cat : String) (v : List String) (c : Nat),
      ((recursive_scrape_aux g maxA fuel cat v c).2.2).Nodup ∧
      (∀ x ∈ (recursive_scrape_aux g maxA fuel cat v c).2.2, x ∉ v) ∧
      (∀ x, x ∈ (recursive_scrape_aux g maxA fuel cat v c).1 ↔
        x ∈ (recursive_scrape_aux g maxA fuel cat v c).2.2 ∨ x ∈ v)) :
    ∀ (scs : List String) (v : List String) (c : Nat) (t0 : List String),
      t0.Nodup → (∀ x ∈ t0, x ∈ v) →
      ((scrape_subcats g maxA fuel scs v c t0).2.2).Nodup ∧
      (∀ x ∈ (scrape_subcats g maxA fuel scs v c t0).2.2, x ∈ t0 ∨ x ∉ v) ∧
      (∀ x, x ∈ (scrape_subcats g maxA fuel scs v c t0).1 ↔
        x ∈ (scrape_subcats g maxA fuel scs v c t0).2.2 ∨ x ∈ v) ∧
      (∀ x ∈ t0, x ∈ (scrape_subcats g maxA fuel scs v c t0).2.2) := by
  intro scs
  induction scs with
  | nil =>
    intro v c t0 h0 h1
    simp only [scrape_subcats]
    exact ⟨h0, fun x hx => Or.inl hx,
      fun x => ⟨fun hx => Or.inr hx, fun hx => hx.elim (h1 x) id⟩,
      fun x hx => hx⟩
  | cons sc rest ih =>
    intro v c t0 h0 h1
    obtain ⟨a1, a2, a3⟩ := hA sc v c
    simp only [scrape_subcats]
    set r := recursive_scrape_aux g maxA fuel sc v c with hr
    have ht0' : (t0 ++ r.2.2).Nodup := by
      refine List.Nodup.append h0 a1 ?_
      intro x hx0 hxr
      exact a2 x hxr (h1 x hx0)
    have hsub : ∀ x ∈ t0 ++ r.2.2, x ∈ r.1 := by
      intro x hx
      rcases List.mem_append.mp hx with hx0 | hxr
      · exact (a3 x).mpr (Or.inr (h1 x hx0))
      · exact (a3 x).mpr (Or.inl hxr)
    obtain ⟨c1, c2, c3, c4⟩ := ih r.1 r.2.1 (t0 ++ r.2.2) ht0' hsub
    refine ⟨c1, ?_, ?_, ?_⟩
    · intro x hx
      rcases c2 x hx with hx1 | hx2
      · rcases List.mem_append.mp hx1 with hx0 | hxr
        · exact Or.inl hx0
        · exact Or.inr (a2 x hxr)
      · exact Or.inr (fun hv => hx2 ((a3 x).mpr (Or.inr hv)))
    · intro x
      rw [c3 x, a3 x]
      constructor
      · rintro (hx | hx | hx)
        · exact Or.inl hx
        · exact Or.inl (c4 x (List.mem_append.mpr (Or.inr hx)))
        · exact Or.inr hx
      · rintro (hx | hx)
        · exact Or.inl hx
        · exact Or.inr (Or.inr hx)
    · intro x hx
      exact c4 x (List.mem_append.mpr (Or.inl hx))

theorem crawl_aux_invariant (g : CategoryGraph) (maxA : Nat) :
    ∀ (fuel : Nat) (cat : String) (v : List String) (c : Nat),
      ((recursive_scrape_aux g maxA fuel cat v c).2.2).Nodup ∧
      (∀ x ∈ (recursive_scrape_aux g maxA fuel cat v c).2.2, x ∉ v) ∧
      (∀ x, x ∈ (recursive_scrape_aux g maxA fuel cat v c).1 ↔
        x ∈ (recursive_scrape_aux g maxA fuel cat v c).2.2 ∨ x ∈ v) := by
  intro fuel
  induction fuel with
  | zero =>
    intro cat v c
    simp [recursive_scrape_aux]
  | succ f ihf =>
    intro cat v c
    by_cases hg : cat ∈ v ∨ maxA ≤ c
    · simp [recursive_scrape_aux, hg]
    · have hcat : cat ∉ v := fun hc => hg (Or.inl hc)
      have hb := crawl_subcats_invariant g maxA f ihf (g.subcats cat) (cat :: v)
        (c + (g.members cat).length) [cat] (List.nodup_singleton cat) (by simp)
      obtain ⟨b1, b2, b3, b4⟩ := hb
      simp only [recursive_scrape_aux, if_neg hg]
      refine ⟨b1, ?_, ?_⟩
      · intro x hx
        rcases b2 x hx with hx1 | hx2
        · rw [List.mem_singleton] at hx1
          exact hx1 ▸ hcat
        · exact fun hv => hx2 (List.mem_cons_of_mem cat hv)
      · intro x
        rw [b3 x]
        constructor
        · rintro (hx | hx)
          · exact Or.inl hx
          · rcases List.mem_cons.mp hx with rfl | hv
            · exact Or.inl (b4 x (List.mem_singleton_self x))
            · exact Or.inr hv
        · rintro (hx | hx)
          · exact Or.inl hx
          · exact Or.inr (List.mem_cons_of_mem cat hx)

/-- C6: for every category graph, cyclic ones included, the recursive
crawl's trace of crawled categories has no duplicates (each category is
visited at most once — and the crawl terminates, the crawl function
being total), no already-visited category is crawled again, and the
crawl short-circuits whenever `max_depth < 0`, the category is already
in the shared visited set, or the article-count ceiling is reached. -/
theorem recursive_crawl_visits_each_once (g : CategoryGraph) (cat : String)
    (max_depth : Int) (maxA : Nat) (visited : List String) (cnt : Nat) :
    ((recursive_scrape g cat max_depth maxA visited cnt).2.2).Nodup ∧
    (∀ x ∈ (recursive_scrape g cat max_depth maxA visited cnt).2.2, x ∉ visited) ∧
    ((max_depth < 0 ∨ cat ∈ visited ∨ maxA ≤ cnt) →
      recursive_scrape g cat max_depth maxA visited cnt = (visited, cnt, [])) := by
  have h := crawl_aux_invariant g maxA (max_depth + 1).toNat cat visited cnt
  refine ⟨h.1, h.2.1, ?_⟩
  intro hg
  unfold recursive_scrape
  rcases hg with hd | hv
  · have hz : (max_depth + 1).toNat = 0 := by omega
    rw [hz]
    simp [recursive_scrape_aux]
  · cases hf : (max_depth + 1).toNat with
    | zero => simp [recursive_scrape_aux]
    | succ f => simp [recursive_scrape_aux, hv]

/-- Witness for C6 on the cyclic graph `gXY`, including the
short-circuit at `max_depth = -1`. -/
theorem recursive_crawl_visits_each_once_witness :
    ((recursive_scrape gXY "X" 2 1000 [] 0).2.2).Nodup ∧
    (∀ x ∈ (recursive_scrape gXY "X" 2 1000 [] 0).2.2, x ∉ ([] : List String)) ∧
    recursive_scrape gXY "X" (-1) 1000 [] 0 = ([], 0, []) :=
  ⟨(recursive_crawl_visits_each_once gXY "X" 2 1000 [] 0).1,
   (recursive_crawl_visits_each_once gXY "X" 2 1000 [] 0).2.1,
   (recursive_crawl_visits_each_once gXY "X" (-1) 1000 [] 0).2.2
     (Or.inl (by decide))⟩

end UzWiki
